import Mathlib

/-!
Verification of the mkdocs source-file classification / output-path mapping
subsystem (`src/mkdocs/structure/files.py`) and of the plugin registry,
hook-dispatch and plugin-config-validation subsystem (whose module is only
visible here through `src/mkdocs/tests/plugin_tests.py`; those parts are
modelled from the spec).

Paths are modelled as POSIX paths (`/`-separated strings), matching the
semantics of Python's `posixpath` module, which the source uses via
`os.path`. Each path primitive below is a direct translation of the
corresponding CPython `posixpath` function.
-/

set_option autoImplicit false

namespace Mkdocs

/-- Index of the last occurrence of `c` in `l`, or `-1` when `c` does not
occur: a translation of Python's `str.rfind` for a single character. -/
def rfindIdx (c : Char) : List Char → Int
  | [] => -1
  | a :: t =>
    let r := rfindIdx c t
    if r ≥ 0 then r + 1
    else if a = c then 0 else -1

/-- `posixpath.splitext` on a list of characters: split at the last dot,
provided some character strictly between the last separator and that dot
is not itself a dot (so purely-leading dots never start an extension). -/
def splitextL (p : List Char) : List Char × List Char :=
  let sepIndex := rfindIdx '/' p
  let dotIndex := rfindIdx '.' p
  if sepIndex < dotIndex then
    let between := (p.drop (sepIndex + 1).toNat).take (dotIndex - sepIndex - 1).toNat
    if between.any (fun ch => ch != '.') then
      (p.take dotIndex.toNat, p.drop dotIndex.toNat)
    else (p, [])
  else (p, [])

/-- `os.path.splitext` for POSIX paths. -/
def splitext (p : String) : String × String :=
  (⟨(splitextL p.data).1⟩, ⟨(splitextL p.data).2⟩)

/-- `posixpath.basename`: everything after the last `/`. -/
def basename (p : String) : String :=
  ⟨p.data.drop (rfindIdx '/' p.data + 1).toNat⟩

/-- Remove every trailing `/` character (Python's `str.rstrip('/')`). -/
def rstripSlashes (l : List Char) : List Char :=
  (l.reverse.dropWhile (fun c => c == '/')).reverse

/-- `posixpath.dirname`: everything up to the last `/`, with trailing
slashes stripped unless the result consists only of slashes. -/
def dirname (p : String) : String :=
  let i := (rfindIdx '/' p.data + 1).toNat
  let head := p.data.take i
  if head ≠ [] ∧ head.any (fun c => c != '/') then ⟨rstripSlashes head⟩
  else ⟨head⟩

/-- `posixpath.join` restricted to two components, as used by the source. -/
def joinPath (a b : String) : String :=
  if b.data.head? = some '/' then b
  else if a.data = [] ∨ a.data.getLast? = some '/' then ⟨a.data ++ b.data⟩
  else ⟨a.data ++ '/' :: b.data⟩

/-- Python's `str.split('/')`. -/
def splitOnSlash : List Char → List (List Char)
  | [] => [[]]
  | c :: t =>
    if c = '/' then [] :: splitOnSlash t
    else
      match splitOnSlash t with
      | [] => [[c]]
      | h :: r => (c :: h) :: r

/-- Python's `'/'.join`. -/
def joinWithSlash : List (List Char) → List Char
  | [] => []
  | [c] => c
  | c :: rest => c ++ '/' :: joinWithSlash rest

/-- The component-processing loop of `posixpath.normpath`. -/
def normpathComps (initialSlashes : Nat) (comps : List (List Char)) : List (List Char) :=
  comps.foldl
    (fun acc comp =>
      if comp = [] ∨ comp = ['.'] then acc
      else if comp ≠ ['.', '.'] ∨ (initialSlashes = 0 ∧ acc = []) ∨
          acc.getLast? = some ['.', '.'] then
        acc ++ [comp]
      else if acc ≠ [] then acc.dropLast
      else acc)
    []

/-- `posixpath.normpath`: collapse `//`, `.` and `..` components, keeping
up to two leading slashes, and returning `.` for an empty result. -/
def normpath (p : String) : String :=
  if p.data = [] then "."
  else
    let initialSlashes : Nat :=
      if p.data.take 1 = ['/'] then
        if p.data.take 2 = ['/', '/'] ∧ p.data.take 3 ≠ ['/', '/', '/'] then 2 else 1
      else 0
    let newComps := normpathComps initialSlashes (splitOnSlash p.data)
    let res := List.replicate initialSlashes '/' ++ joinWithSlash newComps
    if res = [] then "." else ⟨res⟩

/-- Python's `str.lower`, which on the ASCII extensions handled here
coincides with `Char.toLower` applied characterwise. -/
def lowerStr (s : String) : String := ⟨s.data.map Char.toLower⟩

/-- Modelled from the spec: `MARKDOWN_EXTENSIONS` lives in `mkdocs/utils`,
which is not under `src/`; the spec describes it as the externally
configured set of recognized documentation extensions, e.g. `.md`,
`.markdown`, `.mdown` (each lower-case, with the leading dot). -/
def MARKDOWN_EXTENSIONS : List String := [".md", ".markdown", ".mdown"]

namespace File

/-- `File.root`: the basename of the input path without its extension
(computed in `File.__init__` from the filename). -/
def root (path : String) : String := (splitext (basename path)).1

/-- `File.extension`: the lower-cased extension of the basename. -/
def extension (path : String) : String := lowerStr (splitext (basename path)).2

/-- `File.is_documentation_page`: the extension is a markdown extension. -/
def is_documentation_page (path : String) : Bool :=
  MARKDOWN_EXTENSIONS.contains (extension path)

/-- `File.get_output_path`: documentation pages map to
`<directory>/index.html` where the directory is the parent directory for
`index`/`README` roots and the extension-stripped input path otherwise;
every other file maps to its normalized input path. -/
def get_output_path (path : String) : String :=
  if is_documentation_page path then
    let directory :=
      if root path = "index" ∨ root path = "README" then dirname path
      else (splitext path).1
    normpath (joinPath directory "index.html")
  else normpath path

end File

/-- All suffixes of a list, longest first (ending with `[]`). -/
def tailsL : List Char → List (List Char)
  | [] => [[]]
  | c :: t => (c :: t) :: tailsL t

/-- Shell-glob matching as performed by `fnmatch.fnmatch` on POSIX
(where `normcase` is the identity): `*` matches any sequence, `?` any
single character, anything else itself, and the whole name must match.
Bracket character classes are not needed by the exclusion patterns in
this source and other characters are matched literally. -/
def globMatch : List Char → List Char → Bool
  | [], s => s.isEmpty
  | p :: ps, s =>
    if p = '*' then (tailsL s).any (fun t => globMatch ps t)
    else
      match s with
      | [] => false
      | c :: ss => (p == '?' || p == c) && globMatch ps ss

/-- `fnmatch.fnmatch(name, pattern)` on POSIX. -/
def fnmatch (name pattern : String) : Bool :=
  globMatch pattern.data name.data

/-- Python's `str.strip('/')`: drop leading and trailing slashes. -/
def stripSlashes (s : String) : String :=
  ⟨rstripSlashes (s.data.dropWhile (fun c => c == '/'))⟩

/-- `_filter_paths`: gitignore-style filtering. A pattern ending in `/`
applies only to directories; a pattern starting with `/` is matched
against the whole relative path, any other against the basename; the
entry is excluded as soon as one pattern matches. -/
def _filter_paths (basename path : String) (is_dir : Bool) (exclude : List String) : Bool :=
  exclude.any (fun item =>
    if item.data.getLast? = some '/' ∧ is_dir = false then false
    else
      fnmatch (if item.data.head? = some '/' then path else basename)
        (stripSlashes item))

/-- The exclusion patterns hard-coded in `get_files`:
`exclude = ['.*', '/templates']`. -/
def defaultExclude : List String := [".*", "/templates"]

/-- Python string `<` (lexicographic comparison by code points). -/
def lexLt : List Char → List Char → Bool
  | [], [] => false
  | [], _ :: _ => true
  | _ :: _, [] => false
  | a :: as, b :: bs => if a < b then true else if b < a then false else lexLt as bs

/-- The inner `compare` function of `sort_files`: `0` for equal names,
`1` when `y` has root `index`, `-1` when `x` has root `index` or is
lexicographically smaller, otherwise `1`. -/
def fileCompare (x y : String) : Int :=
  if x = y then 0
  else if (splitext y).1 = "index" then 1
  else if (splitext x).1 = "index" ∨ lexLt x.data y.data = true then -1
  else 1

/-- Stable insertion of `x` into `acc`: `x` is placed before the first
element it compares strictly below, after everything else. -/
def insertSorted (x : String) : List String → List String
  | [] => [x]
  | y :: ys => if fileCompare x y < 0 then x :: y :: ys else y :: insertSorted x ys

/-- `sort_files`: Python's stable `sorted` with `cmp_to_key(compare)`,
modelled as a stable insertion sort over the strict order
`compare x y < 0` (identical to CPython's stable sort whenever the
comparator is consistent). -/
def sort_files (filenames : List String) : List String :=
  filenames.foldl (fun acc x => insertSorted x acc) []

/-! The plugin module itself (`mkdocs/plugins.py`) is not under `src/`;
only its tests are. The registry, hook dispatcher and config-validation
definitions below are therefore modelled from the spec (§3, §4.5, §7),
with the tests in `src/mkdocs/tests/plugin_tests.py` as concrete
instances. -/

/-- Modelled from the spec: a plugin instance, for the purposes of hook
dispatch, is the assignment of an optional handler to each hook name; a
handler takes the payload and returns either a replacement payload or
null (`none`). -/
def Plugin (α : Type) : Type := String → Option (α → Option α)

namespace PluginCollection

/-- Modelled from the spec: the `PluginRegistry` is an insertion-ordered
mapping from plugin name to instance, represented as an association
list in insertion order. `set` inserts a fresh name at the end and
overwrites an existing name in place, preserving its slot. -/
def set {α : Type} (reg : List (String × α)) (name : String) (inst : α) :
    List (String × α) :=
  match reg with
  | [] => [(name, inst)]
  | (n, v) :: rest =>
    if n = name then (n, inst) :: rest else (n, v) :: set rest name inst

/-- Modelled from the spec: `items()` yields the (name, instance) pairs
in insertion order. -/
def items {α : Type} (reg : List (String × α)) : List (String × α) := reg

end PluginCollection

/-- Modelled from the spec: the recognized hook names used by the tests
(`pre_page` threads page content; `post_nav` threads a nav item). -/
def EVENTS : List String := ["pre_page", "post_nav"]

/-- Modelled from the spec: the error raised when dispatch is requested
for a hook name outside the recognized set. -/
inductive HookError where
  | unknownHook : String → HookError
deriving DecidableEq

/-- Modelled from the spec: one step of hook dispatch. If the plugin
defines a handler for the hook, call it; a non-null result replaces the
payload, a null result leaves it unchanged. -/
def applyHook {α : Type} (p : Plugin α) (name : String) (payload : α) : α :=
  match p name with
  | none => payload
  | some h =>
    match h payload with
    | none => payload
    | some r => r

/-- Modelled from the spec: thread the payload through every registered
plugin in registry insertion order. -/
def dispatchAll {α : Type} (name : String) (payload : α) :
    List (String × Plugin α) → α
  | [] => payload
  | (_, p) :: rest => dispatchAll name (applyHook p name payload) rest

/-- Modelled from the spec: `HookDispatcher.run`: an unrecognized hook
name fails with `UnknownHookError`; otherwise the payload is threaded
through every registered plugin in order and the final payload is
returned. -/
def run_event {α : Type} (events : List String) (reg : List (String × Plugin α))
    (name : String) (payload : α) : Except HookError α :=
  if name ∈ events then Except.ok (dispatchAll name payload reg)
  else Except.error (HookError.unknownHook name)

/-- A plugin that, on `pre_page`, joins its configured word and the page
content with a space (the behaviour of `DummyPlugin.on_pre_page` in the
tests, with `w` standing for the validated `foo` config value). -/
def prependPlugin (w : String) : Plugin String := fun name =>
  if name = "pre_page" then some (fun content => some (w ++ " " ++ content))
  else none

/-- Modelled from the spec: a declared scheme entry carries an external
validator capability and a default value. -/
structure ConfigOption (V : Type) where
  validate : V → Except String V
  default : V

/-- First value associated with `key` in an association list. -/
def lookupKey {V : Type} (key : String) : List (String × V) → Option V
  | [] => none
  | (k, v) :: rest => if k = key then some v else lookupKey key rest

/-- The error message recorded for a scheme key whose validator failed;
it contains the key name. -/
def errMsg (key msg : String) : String :=
  "Invalid value for option " ++ key ++ (": " ++ msg)

/-- The warning recorded for an option key not declared in the scheme;
it contains the key name. -/
def warnMsg (key : String) : String :=
  "Unrecognised configuration option " ++ key ++ " ignored"

/-- Modelled from the spec: the `config` mapping produced by
`loadConfig` — for each declared scheme entry in order, the validated
value when the key is present in the options and validation succeeds,
and the scheme default otherwise. -/
def configOf {V : Type} (scheme : List (String × ConfigOption V))
    (options : List (String × V)) : List (String × V) :=
  scheme.map (fun kv =>
    (kv.1,
      match lookupKey kv.1 options with
      | none => kv.2.default
      | some raw =>
        match kv.2.validate raw with
        | Except.ok v => v
        | Except.error _ => kv.2.default))

/-- Modelled from the spec: the errors produced by `loadConfig` — one
message, containing the key name, for each declared key present in the
options whose validator fails. -/
def errorsOf {V : Type} (scheme : List (String × ConfigOption V))
    (options : List (String × V)) : List String :=
  scheme.filterMap (fun kv =>
    match lookupKey kv.1 options with
    | none => none
    | some raw =>
      match kv.2.validate raw with
      | Except.ok _ => none
      | Except.error m => some (errMsg kv.1 m))

/-- Modelled from the spec: the warnings produced by `loadConfig` — one
message, containing the key name, for each option key not declared in
the scheme; the value of such a key is ignored. -/
def warningsOf {V : Type} (scheme : List (String × ConfigOption V))
    (options : List (String × V)) : List String :=
  options.filterMap (fun kv =>
    match lookupKey kv.1 scheme with
    | some _ => none
    | none => some (warnMsg kv.1))

/-- Modelled from the spec: `loadConfig(options)` replaces the config
with the validated mapping and returns the collected errors and
warnings. -/
def load_config {V : Type} (scheme : List (String × ConfigOption V))
    (options : List (String × V)) :
    List (String × V) × List String × List String :=
  (configOf scheme options, errorsOf scheme options, warningsOf scheme options)

/-- The values appearing in the test plugin's configuration: strings and
integers. -/
inductive ConfigValue where
  | str : String → ConfigValue
  | int : Int → ConfigValue
deriving DecidableEq

/-- The `Type(string_types)` validator of the test scheme: accepts
strings, rejects everything else. -/
def typeStr : ConfigOption ConfigValue where
  validate v :=
    match v with
    | ConfigValue.str s => Except.ok (ConfigValue.str s)
    | _ => Except.error "expected a string value"
  default := ConfigValue.str "default foo"

/-- The `Type(int)` validator of the test scheme: accepts integers,
rejects everything else. -/
def typeInt : ConfigOption ConfigValue where
  validate v :=
    match v with
    | ConfigValue.int n => Except.ok (ConfigValue.int n)
    | _ => Except.error "expected an integer value"
  default := ConfigValue.int 0

/-- The `config_scheme` of `DummyPlugin` in the tests. -/
def dummy_scheme : List (String × ConfigOption ConfigValue) :=
  [("foo", typeStr), ("bar", typeInt)]

/-- A list of filenames is index-first when it is a block of filenames
with root `index` followed by a block of filenames with other roots. -/
def IndexFirst (l : List String) : Prop :=
  ∃ as bs, l = as ++ bs ∧ (∀ x ∈ as, (splitext x).1 = "index") ∧
    ∀ y ∈ bs, (splitext y).1 ≠ "index"

/-! Theorems. -/

theorem fileCompare_not_lt_of_index {x y : String} (h : (splitext y).1 = "index") :
    ¬ fileCompare x y < 0 := by
  unfold fileCompare
  by_cases hxy : x = y
  · rw [if_pos hxy]; decide
  · rw [if_neg hxy, if_pos h]; decide

theorem fileCompare_lt_of_index {x y : String} (hx : (splitext x).1 = "index")
    (hy : (splitext y).1 ≠ "index") : fileCompare x y < 0 := by
  have hxy : x ≠ y := by
    intro e
    rw [e] at hx
    exact hy hx
  unfold fileCompare
  rw [if_neg hxy, if_neg hy, if_pos (Or.inl hx)]
  decide

theorem mem_insertSorted (x z : String) (l : List String)
    (h : z ∈ insertSorted x l) : z = x ∨ z ∈ l := by
  induction l with
  | nil => simpa [insertSorted] using h
  | cons y ys ih =>
    simp only [insertSorted] at h
    by_cases hc : fileCompare x y < 0
    · rw [if_pos hc] at h
      rcases List.mem_cons.mp h with h | h
      · exact Or.inl h
      · exact Or.inr h
    · rw [if_neg hc] at h
      rcases List.mem_cons.mp h with h | h
      · exact Or.inr (h ▸ List.mem_cons_self y ys)
      · rcases ih h with h1 | h1
        · exact Or.inl h1
        · exact Or.inr (List.mem_cons_of_mem y h1)

theorem insertSorted_append (x : String) (as bs : List String)
    (h : ∀ a ∈ as, ¬ fileCompare x a < 0) :
    insertSorted x (as ++ bs) = as ++ insertSorted x bs := by
  induction as with
  | nil => rfl
  | cons a rest ih =>
    have ha : ¬ fileCompare x a < 0 := h a (List.mem_cons_self a rest)
    simp only [List.cons_append, insertSorted, if_neg ha]
    exact congrArg (List.cons a) (ih (fun b hb => h b (List.mem_cons_of_mem a hb)))

theorem indexFirst_insertSorted (x : String) {l : List String} (h : IndexFirst l) :
    IndexFirst (insertSorted x l) := by
  obtain ⟨as, bs, rfl, has, hbs⟩ := h
  have hskip : ∀ a ∈ as, ¬ fileCompare x a < 0 :=
    fun a ha => fileCompare_not_lt_of_index (has a ha)
  rw [insertSorted_append x as bs hskip]
  by_cases hx : (splitext x).1 = "index"
  · cases bs with
    | nil =>
      refine ⟨as ++ [x], [], by simp [insertSorted], ?_, by simp⟩
      intro z hz
      rcases List.mem_append.mp hz with hz | hz
      · exact has z hz
      · rw [List.mem_singleton.mp hz]; exact hx
    | cons b bs' =>
      have hlt : fileCompare x b < 0 :=
        fileCompare_lt_of_index hx (hbs b (List.mem_cons_self b bs'))
      refine ⟨as ++ [x], b :: bs', ?_, ?_, hbs⟩
      · simp [insertSorted, if_pos hlt]
      · intro z hz
        rcases List.mem_append.mp hz with hz | hz
        · exact has z hz
        · rw [List.mem_singleton.mp hz]; exact hx
  · refine ⟨as, insertSorted x bs, rfl, has, ?_⟩
    intro z hz
    rcases mem_insertSorted x z bs hz with hz | hz
    · rw [hz]; exact hx
    · exact hbs z hz

theorem indexFirst_foldl (l : List String) :
    ∀ acc, IndexFirst acc →
      IndexFirst (l.foldl (fun acc x => insertSorted x acc) acc) := by
  induction l with
  | nil => intro acc h; simpa using h
  | cons x xs ih =>
    intro acc h
    exact ih _ (indexFirst_insertSorted x h)

/-- C3: in the output of `sort_files`, every filename whose root (name
without extension) is `index` appears before every filename whose root
is different: the sorted list is an index-rooted block followed by a
block of other roots. -/
theorem c3_sort_files_index_first (l : List String) :
    ∃ as bs, sort_files l = as ++ bs ∧ (∀ x ∈ as, (splitext x).1 = "index") ∧
      ∀ y ∈ bs, (splitext y).1 ≠ "index" :=
  indexFirst_foldl l [] ⟨[], [], rfl, by simp, by simp⟩

/-- C4, counterexample: for `x = "a.md"` and `y = "index.md"` (distinct,
and `y` has root `index`) the comparator returns `1`, not `-1`: `x` is
ordered after `y`, not before it. -/
theorem c4_compare_counterexample :
    fileCompare "a.md" "index.md" = 1 ∧ ¬ fileCompare "a.md" "index.md" = -1 := by
  decide

/-- C4 as amended: for every pair of distinct filenames `x` and `y`, if
`y`'s root is `index` then the pairwise comparator returns `1`, i.e. `x`
is ordered after `y` (index files sort first). -/
theorem c4_compare_index_sorts_first (x y : String) (hxy : x ≠ y)
    (hy : (splitext y).1 = "index") : fileCompare x y = 1 := by
  unfold fileCompare
  rw [if_neg hxy, if_pos hy]

theorem c4_compare_index_sorts_first_witness :
    ("b.txt" : String) ≠ "index.html" ∧ fileCompare "b.txt" "index.html" = 1 :=
  ⟨by decide, c4_compare_index_sorts_first "b.txt" "index.html" (by decide) (by decide)⟩

/-- C1: for every documentation page, the output path is the normalized
join of a directory and `index.html`, where the directory is the parent
directory for roots `index` and `README` and the extension-stripped
input path otherwise; in particular for the three spec examples. -/
theorem c1_documentation_output_path :
    (∀ p : String, File.is_documentation_page p = true →
      File.get_output_path p =
        normpath (joinPath
          (if File.root p = "index" ∨ File.root p = "README" then dirname p
           else (splitext p).1) "index.html")) ∧
    File.get_output_path "docs/page.md" = "docs/page/index.html" ∧
    File.get_output_path "docs/index.md" = "docs/index.html" ∧
    File.get_output_path "docs/README.markdown" = "docs/index.html" := by
  refine ⟨fun p h => ?_, by decide, by decide, by decide⟩
  simp only [File.get_output_path, h, if_true]

theorem c1_documentation_output_path_witness :
    File.is_documentation_page "a/b.md" = true ∧
    File.get_output_path "a/b.md" =
      normpath (joinPath
        (if File.root "a/b.md" = "index" ∨ File.root "a/b.md" = "README" then dirname "a/b.md"
         else (splitext "a/b.md").1) "index.html") :=
  ⟨by decide, c1_documentation_output_path.1 "a/b.md" (by decide)⟩

/-- C8: for every file with a normalized input path that is not a
documentation page, the output path equals the input path exactly; in
particular `img/logo.png` maps to `img/logo.png`. -/
theorem c8_non_documentation_output_path :
    (∀ p : String, normpath p = p → File.is_documentation_page p = false →
      File.get_output_path p = p) ∧
    File.get_output_path "img/logo.png" = "img/logo.png" := by
  refine ⟨fun p hn h => ?_, by decide⟩
  simp only [File.get_output_path, h, Bool.false_eq_true, if_false, hn]

theorem c8_non_documentation_output_path_witness :
    normpath "img/logo.png" = "img/logo.png" ∧
    File.is_documentation_page "img/logo.png" = false ∧
    File.get_output_path "img/logo.png" = "img/logo.png" :=
  ⟨by decide, by decide,
    c8_non_documentation_output_path.1 "img/logo.png" (by decide) (by decide)⟩

theorem tailsL_any_isEmpty (t : List Char) :
    (tailsL t).any (fun u => u.isEmpty) = true := by
  induction t with
  | nil => rfl
  | cons c t ih => simp [tailsL, ih]

theorem tailsL_mem_nil (t : List Char) : [] ∈ tailsL t := by
  induction t with
  | nil => exact List.mem_singleton.mpr rfl
  | cons c t ih => exact List.mem_cons_of_mem _ ih

theorem globMatch_star (t : List Char) : globMatch ['*'] t = true := by
  simp [globMatch]
  exact tailsL_mem_nil t

theorem globMatch_dot_star (t : List Char) :
    globMatch ['.', '*'] ('.' :: t) = true := by
  simp [globMatch]
  exact tailsL_mem_nil t

theorem filter_dotfile (b p : String) (d : Bool) (t : List Char)
    (hb : b.data = '.' :: t) : _filter_paths b p d defaultExclude = true := by
  have h1 : ¬ ((".*" : String).data.getLast? = some '/' ∧ d = false) := by
    intro hc
    exact absurd hc.1 (by decide)
  have h2 : fnmatch b ".*" = true := by
    unfold fnmatch
    rw [hb]
    exact globMatch_dot_star t
  simp only [_filter_paths, defaultExclude, List.any_cons, List.any_nil,
    Bool.or_eq_true]
  left
  rw [if_neg h1]
  have h3 : ((".*" : String).data.head? = some '/') = False := by
    simp
  rw [if_neg (by simp)]
  exact h2

/-- C7: under the default exclusion patterns, every entry whose basename
starts with a dot is excluded (for any path and either kind of entry),
the `templates` directory at the source root (whose relative path, as
computed by `get_files`, normalizes to `templates`) is excluded, and a
file named `templates.md` is not excluded. -/
theorem c7_default_exclusions :
    (∀ (b p : String) (d : Bool) (t : List Char), b.data = '.' :: t →
      _filter_paths b p d defaultExclude = true) ∧
    _filter_paths "templates" (normpath (joinPath "." "templates")) true
      defaultExclude = true ∧
    _filter_paths "templates.md" "templates.md" false defaultExclude = false :=
  ⟨fun b p d t hb => filter_dotfile b p d t hb, by decide, by decide⟩

theorem c7_default_exclusions_witness :
    (".git" : String).data = '.' :: ['g', 'i', 't'] ∧
    _filter_paths ".git" "docs/.git" true defaultExclude = true :=
  ⟨by decide,
    c7_default_exclusions.1 ".git" "docs/.git" true ['g', 'i', 't'] (by decide)⟩

/-- C10: a regular file (not a directory) named `templates` at the
source root is also excluded, because the pattern `/templates` does not
end with `/` and therefore applies to files as well. -/
theorem c10_templates_file_excluded :
    _filter_paths "templates" (normpath (joinPath "." "templates")) false
      defaultExclude = true ∧
    ("/templates" : String).data.getLast? ≠ some '/' := by
  decide

/-- C2: hook dispatch walks the registry in insertion order, threading
the payload: the head plugin runs first and its outcome is the payload
for the rest; a handler returning a non-null result replaces the
payload, a null result and an absent handler leave it unchanged; and the
two-plugin `pre_page` example on payload `X` returns `B A X`. -/
theorem c2_hook_dispatch_order_and_threading :
    (∀ (α : Type) (events : List String) (nm : String) (p : Plugin α)
        (rest : List (String × Plugin α)) (name : String) (x : α), name ∈ events →
      run_event events ((nm, p) :: rest) name x =
        run_event events rest name (applyHook p name x)) ∧
    (∀ (α : Type) (p : Plugin α) (name : String) (x : α) (h : α → Option α) (r : α),
      p name = some h → h x = some r → applyHook p name x = r) ∧
    (∀ (α : Type) (p : Plugin α) (name : String) (x : α) (h : α → Option α),
      p name = some h → h x = none → applyHook p name x = x) ∧
    (∀ (α : Type) (p : Plugin α) (name : String) (x : α),
      p name = none → applyHook p name x = x) ∧
    run_event EVENTS [("foo", prependPlugin "A"), ("bar", prependPlugin "B")]
      "pre_page" "X" = Except.ok "B A X" := by
  refine ⟨?_, ?_, ?_, ?_, rfl⟩
  · intro α events nm p rest name x hmem
    simp [run_event, hmem, dispatchAll]
  · intro α p name x h r hp hr
    simp [applyHook, hp, hr]
  · intro α p name x h hp hr
    simp [applyHook, hp, hr]
  · intro α p name x hp
    simp [applyHook, hp]

theorem c2_hook_dispatch_order_and_threading_witness :
    run_event EVENTS [("foo", prependPlugin "A"), ("bar", prependPlugin "B")]
      "pre_page" "X" =
      run_event EVENTS [("bar", prependPlugin "B")] "pre_page"
        (applyHook (prependPlugin "A") "pre_page" "X") :=
  c2_hook_dispatch_order_and_threading.1 String EVENTS "foo" (prependPlugin "A")
    [("bar", prependPlugin "B")] "pre_page" "X" (by decide)

theorem dispatchAll_no_handler {α : Type} (name : String) (x : α) :
    ∀ l : List (String × Plugin α), (∀ pr ∈ l, pr.2 name = none) →
      dispatchAll name x l = x := by
  intro l
  induction l with
  | nil => intro _; rfl
  | cons a rest ih =>
    intro hl
    obtain ⟨n, p⟩ := a
    have hp : p name = none := hl (n, p) (List.mem_cons_self _ _)
    simp only [dispatchAll, applyHook, hp]
    exact ih (fun pr hpr => hl pr (List.mem_cons_of_mem _ hpr))

/-- C6: dispatching a recognized hook for which no registered plugin
defines a handler returns the payload unchanged, and dispatching a hook
name outside the recognized set fails with `UnknownHookError`. -/
theorem c6_unknown_and_unhandled_hooks :
    (∀ (α : Type) (events : List String) (reg : List (String × Plugin α))
        (name : String) (x : α), name ∈ events →
      (∀ pr ∈ reg, pr.2 name = none) → run_event events reg name x = Except.ok x) ∧
    (∀ (α : Type) (events : List String) (reg : List (String × Plugin α))
        (name : String) (x : α), name ∉ events →
      run_event events reg name x = Except.error (HookError.unknownHook name)) := by
  constructor
  · intro α events reg name x hmem hnone
    simp [run_event, hmem, dispatchAll_no_handler name x reg hnone]
  · intro α events reg name x hmem
    simp [run_event, hmem]

theorem c6_unknown_and_unhandled_hooks_witness :
    run_event EVENTS ([] : List (String × Plugin String)) "pre_page" "page content" =
      Except.ok "page content" ∧
    run_event EVENTS ([] : List (String × Plugin String)) "unknown" "page content" =
      Except.error (HookError.unknownHook "unknown") :=
  ⟨c6_unknown_and_unhandled_hooks.1 String EVENTS [] "pre_page" "page content"
      (by decide) (by intro pr hpr; exact absurd hpr (List.not_mem_nil pr)),
    c6_unknown_and_unhandled_hooks.2 String EVENTS [] "unknown" "page content"
      (by decide)⟩

/-- C9: overwriting an already-registered name replaces the stored
instance but keeps its slot in `items()` (stated for the first
occurrence of the name, which is unique under the registry invariant),
and setting a fresh name appends it, so `items()` is in insertion
order. -/
theorem c9_registry_order_stable :
    (∀ (α : Type) (pre post : List (String × α)) (n : String) (v v' : α),
      (∀ q ∈ pre, q.1 ≠ n) →
      PluginCollection.items (PluginCollection.set (pre ++ (n, v) :: post) n v') =
        pre ++ (n, v') :: post) ∧
    (∀ (α : Type) (reg : List (String × α)) (n : String) (v : α),
      (∀ q ∈ reg, q.1 ≠ n) →
      PluginCollection.items (PluginCollection.set reg n v) =
        PluginCollection.items reg ++ [(n, v)]) := by
  constructor
  · intro α pre post n v v' hpre
    induction pre with
    | nil => simp [PluginCollection.set, PluginCollection.items]
    | cons q rest ih =>
      obtain ⟨qn, qv⟩ := q
      have hq : qn ≠ n := hpre (qn, qv) (List.mem_cons_self _ _)
      simp only [PluginCollection.items, List.cons_append, PluginCollection.set,
        if_neg hq] at ih ⊢
      exact congrArg (List.cons (qn, qv))
        (ih (fun r hr => hpre r (List.mem_cons_of_mem _ hr)))
  · intro α reg n v hreg
    induction reg with
    | nil => rfl
    | cons q rest ih =>
      obtain ⟨qn, qv⟩ := q
      have hq : qn ≠ n := hreg (qn, qv) (List.mem_cons_self _ _)
      simp only [PluginCollection.items, PluginCollection.set, if_neg hq,
        List.cons_append] at ih ⊢
      exact congrArg (List.cons (qn, qv))
        (ih (fun r hr => hreg r (List.mem_cons_of_mem _ hr)))

theorem c9_registry_order_stable_witness :
    PluginCollection.items
        (PluginCollection.set [("foo", (1 : Nat)), ("bar", 2)] "bar" 3) =
      [("foo", (1 : Nat)), ("bar", 3)] ∧
    PluginCollection.items (PluginCollection.set [("foo", (1 : Nat))] "bar" 2) =
      PluginCollection.items [("foo", (1 : Nat))] ++ [("bar", 2)] :=
  ⟨c9_registry_order_stable.1 Nat [("foo", 1)] [] "bar" 2 3 (by decide),
    c9_registry_order_stable.2 Nat [("foo", 1)] "bar" 2 (by decide)⟩

theorem lookupKey_eq_none {V : Type} (k : String) :
    ∀ l : List (String × V), (∀ q ∈ l, q.1 ≠ k) → lookupKey k l = none := by
  intro l
  induction l with
  | nil => intro _; rfl
  | cons q rest ih =>
    intro h
    obtain ⟨qk, qv⟩ := q
    have hq : qk ≠ k := h (qk, qv) (List.mem_cons_self _ _)
    simp only [lookupKey, if_neg hq]
    exact ih (fun r hr => h r (List.mem_cons_of_mem _ hr))

theorem lookupKey_isSome_of_mem {V : Type} (k : String) (w : V) :
    ∀ l : List (String × V), (k, w) ∈ l → ∃ u, lookupKey k l = some u := by
  intro l
  induction l with
  | nil => intro h; exact absurd h (List.not_mem_nil _)
  | cons q rest ih =>
    intro h
    obtain ⟨qk, qv⟩ := q
    by_cases hq : qk = k
    · exact ⟨qv, by simp only [lookupKey, if_pos hq]⟩
    · simp only [lookupKey, if_neg hq]
      rcases List.mem_cons.mp h with h | h
      · exact absurd (congrArg Prod.fst h).symm hq
      · exact ih h

theorem errorsOf_single_undeclared {V : Type} (k : String) (v : V) :
    ∀ scheme : List (String × ConfigOption V), (∀ q ∈ scheme, q.1 ≠ k) →
      errorsOf scheme [(k, v)] = [] := by
  intro scheme
  induction scheme with
  | nil => intro _; rfl
  | cons q rest ih =>
    intro h
    obtain ⟨qk, qo⟩ := q
    have hq : ¬ k = qk := fun e => h (qk, qo) (List.mem_cons_self _ _) e.symm
    simp only [errorsOf, List.filterMap_cons, lookupKey, if_neg hq]
    exact ih (fun r hr => h r (List.mem_cons_of_mem _ hr))

theorem configOf_single_undeclared {V : Type} (k : String) (v : V) :
    ∀ scheme : List (String × ConfigOption V), (∀ q ∈ scheme, q.1 ≠ k) →
      lookupKey k (configOf scheme [(k, v)]) = none := by
  intro scheme
  induction scheme with
  | nil => intro _; rfl
  | cons q rest ih =>
    intro h
    obtain ⟨qk, qo⟩ := q
    have hq : qk ≠ k := h (qk, qo) (List.mem_cons_self _ _)
    simp only [configOf, List.map_cons, lookupKey, if_neg hq]
    exact ih (fun r hr => h r (List.mem_cons_of_mem _ hr))

theorem lookupKey_cons_eq {V : Type} (k : String) (w : V) (l : List (String × V)) :
    lookupKey k ((k, w) :: l) = some w := by
  simp [lookupKey]

theorem lookupKey_cons_ne {V : Type} (k a : String) (w : V) (l : List (String × V))
    (h : ¬ a = k) : lookupKey k ((a, w) :: l) = lookupKey k l := by
  simp [lookupKey, h]

theorem errorsOf_single_invalid {V : Type} (k : String) (opt : ConfigOption V)
    (v : V) (m : String) :
    ∀ scheme : List (String × ConfigOption V), (scheme.map Prod.fst).Nodup →
      (k, opt) ∈ scheme → opt.validate v = Except.error m →
      errorsOf scheme [(k, v)] = [errMsg k m] := by
  intro scheme
  induction scheme with
  | nil => intro _ hmem _; exact absurd hmem (List.not_mem_nil _)
  | cons q rest ih =>
    intro hnd hmem hval
    obtain ⟨qk, qo⟩ := q
    rw [List.map_cons, List.nodup_cons] at hnd
    rcases List.mem_cons.mp hmem with h | h
    · have hk : k = qk := congrArg Prod.fst h
      subst hk
      have ho : opt = qo := congrArg Prod.snd h
      subst ho
      have hrest : ∀ r ∈ rest, r.1 ≠ k := by
        intro r hr e
        have hk2 : r.1 ∈ List.map Prod.fst rest := List.mem_map_of_mem Prod.fst hr
        rw [e] at hk2
        exact hnd.1 hk2
      have hlk : lookupKey k [(k, v)] = some v := lookupKey_cons_eq k v []
      have htail := errorsOf_single_undeclared k v rest hrest
      simp only [errorsOf] at htail
      simp only [errorsOf, List.filterMap_cons, hlk, hval, htail]
    · have hne : ¬ k = qk := by
        intro e
        have hk2 : k ∈ List.map Prod.fst rest := List.mem_map_of_mem Prod.fst h
        rw [e] at hk2
        exact hnd.1 hk2
      have hq : lookupKey qk [(k, v)] = none := by
        rw [lookupKey_cons_ne qk k v [] hne]
        rfl
      have htail := ih hnd.2 h hval
      simp only [errorsOf] at htail
      simp only [errorsOf, List.filterMap_cons, hq, htail]

theorem configOf_single_invalid {V : Type} (k : String) (opt : ConfigOption V)
    (v : V) (m : String) :
    ∀ scheme : List (String × ConfigOption V), (scheme.map Prod.fst).Nodup →
      (k, opt) ∈ scheme → opt.validate v = Except.error m →
      lookupKey k (configOf scheme [(k, v)]) = some opt.default := by
  intro scheme
  induction scheme with
  | nil => intro _ hmem _; exact absurd hmem (List.not_mem_nil _)
  | cons q rest ih =>
    intro hnd hmem hval
    obtain ⟨qk, qo⟩ := q
    rw [List.map_cons, List.nodup_cons] at hnd
    rcases List.mem_cons.mp hmem with h | h
    · have hk : k = qk := congrArg Prod.fst h
      subst hk
      have ho : opt = qo := congrArg Prod.snd h
      subst ho
      have hlk : lookupKey k [(k, v)] = some v := lookupKey_cons_eq k v []
      simp only [configOf, List.map_cons, hlk, hval]
      exact lookupKey_cons_eq k opt.default _
    · have hne : ¬ k = qk := by
        intro e
        have hk2 : k ∈ List.map Prod.fst rest := List.mem_map_of_mem Prod.fst h
        rw [e] at hk2
        exact hnd.1 hk2
      have hlkq : lookupKey qk [(k, v)] = none := by
        rw [lookupKey_cons_ne qk k v [] hne]
        rfl
      have htail := ih hnd.2 h hval
      simp only [configOf, List.map_cons, hlkq]
      rw [lookupKey_cons_ne k qk qo.default _ (fun e => hne e.symm)]
      simpa only [configOf] using htail

theorem warningsOf_single_declared {V : Type} (k : String) (opt : ConfigOption V)
    (v : V) (scheme : List (String × ConfigOption V)) (hmem : (k, opt) ∈ scheme) :
    warningsOf scheme [(k, v)] = [] := by
  obtain ⟨u, hu⟩ := lookupKey_isSome_of_mem k opt scheme hmem
  simp only [warningsOf, List.filterMap_cons, List.filterMap_nil, hu]

/-- C5: loading a single-entry options mapping whose key is not declared
in the scheme yields zero errors and exactly one warning containing the
key name, and the key is not stored in the config; loading a
single-entry options mapping whose declared key fails its validator
yields exactly one error containing the key name, no warnings, and
leaves the key at its scheme default in the config. -/
theorem c5_load_config_validation :
    (∀ (V : Type) (scheme : List (String × ConfigOption V)) (k : String) (v : V),
      (∀ q ∈ scheme, q.1 ≠ k) →
      (load_config scheme [(k, v)]).2.1 = [] ∧
      (load_config scheme [(k, v)]).2.2 = [warnMsg k] ∧
      (∃ a b : String, warnMsg k = a ++ k ++ b) ∧
      lookupKey k (load_config scheme [(k, v)]).1 = none) ∧
    (∀ (V : Type) (scheme : List (String × ConfigOption V)) (k : String)
        (opt : ConfigOption V) (v : V) (m : String),
      (scheme.map Prod.fst).Nodup → (k, opt) ∈ scheme →
      opt.validate v = Except.error m →
      (load_config scheme [(k, v)]).2.1 = [errMsg k m] ∧
      (∃ a b : String, errMsg k m = a ++ k ++ b) ∧
      (load_config scheme [(k, v)]).2.2 = [] ∧
      lookupKey k (load_config scheme [(k, v)]).1 = some opt.default) := by
  constructor
  · intro V scheme k v h
    refine ⟨errorsOf_single_undeclared k v scheme h, ?_,
      ⟨"Unrecognised configuration option ", " ignored", rfl⟩,
      configOf_single_undeclared k v scheme h⟩
    have hk : lookupKey k scheme = none := lookupKey_eq_none k scheme h
    simp only [load_config, warningsOf, List.filterMap_cons, List.filterMap_nil, hk]
  · intro V scheme k opt v m hnd hmem hval
    exact ⟨errorsOf_single_invalid k opt v m scheme hnd hmem hval,
      ⟨"Invalid value for option ", ": " ++ m, rfl⟩,
      warningsOf_single_declared k opt v scheme hmem,
      configOf_single_invalid k opt v m scheme hnd hmem hval⟩

theorem c5_load_config_validation_witness :
    ((load_config dummy_scheme [("invalid_key", ConfigValue.str "value")]).2.1 = [] ∧
     (load_config dummy_scheme [("invalid_key", ConfigValue.str "value")]).2.2 =
       [warnMsg "invalid_key"] ∧
     (∃ a b : String, warnMsg "invalid_key" = a ++ "invalid_key" ++ b) ∧
     lookupKey "invalid_key"
       (load_config dummy_scheme [("invalid_key", ConfigValue.str "value")]).1 = none) ∧
    ((load_config dummy_scheme [("foo", ConfigValue.int 42)]).2.1 =
       [errMsg "foo" "expected a string value"] ∧
     (∃ a b : String, errMsg "foo" "expected a string value" = a ++ "foo" ++ b) ∧
     (load_config dummy_scheme [("foo", ConfigValue.int 42)]).2.2 = [] ∧
     lookupKey "foo" (load_config dummy_scheme [("foo", ConfigValue.int 42)]).1 =
       some typeStr.default) :=
  ⟨c5_load_config_validation.1 ConfigValue dummy_scheme "invalid_key"
      (ConfigValue.str "value") (by decide),
    c5_load_config_validation.2 ConfigValue dummy_scheme "foo" typeStr
      (ConfigValue.int 42) "expected a string value" (by decide)
      (by simp [dummy_scheme]) rfl⟩

end Mkdocs
